import Mathlib

/-!
Shallow embedding of the OLS core of src/pytrix/ls.py (class OLS and its
helpers), translated for verification of the frozen claims.

Modelling conventions:
- Python floats are modelled by exact rationals.  All arithmetic that the
  source performs with numpy floats is performed here over the rationals,
  so properties stated "within floating tolerance" become exact equalities.
- numpy is an external collaborator.  Its operations that the source calls
  are modelled faithfully by exact counterparts on lists of rationals:
  matrix transpose, matrix product, matrix-vector product, population
  variance (ndarray.var, denominator T), the determinant and the adjugate
  inverse (numpy.matrix.I on a square matrix raises
  numpy.linalg.LinAlgError when the matrix is singular, i.e. when its
  determinant vanishes), and numpy.linalg.lstsq.
- numpy.linalg.lstsq(X, Y) raises LinAlgError when rows(X) is not equal to
  rows(Y); otherwise it returns the least-squares solution together with a
  residual-sum-of-squares array that is EMPTY unless rank(X) = cols(X) and
  rows(X) > cols(X).  Over the rationals, rank(X) = cols(X) holds exactly
  when det(transpose(X) * X) is nonzero, and in that full-rank case the
  least-squares solution is inverse(transpose(X) * X) * transpose(X) * Y
  and the reported residual sum of squares equals the exact sum of squared
  residuals of that solution.  OLS.__init__ line 126 subscripts the
  residual array at position 0, which raises IndexError when the array is
  empty.
- math.log and numpy sqrt are irrational-valued external functions; the
  embedding abstracts them (and the scipy.stats CDF collaborators and the
  wall clock read by time.localtime/strftime) into an explicit environment
  record threaded through the functions that use them.
- Python exceptions are modelled by an error type whose constructors name
  the Python exception classes that the code under src/ can actually
  raise.  The source defines no exception classes of its own.
-/

/-- Python exceptions that execution of the OLS code can raise.
linAlgError stands for numpy.linalg.LinAlgError (raised by lstsq on a row
mismatch and by matrix inversion on a singular matrix), indexError for the
subscript of the empty residual array in OLS.__init__ line 126,
assertionError for the assert on line 129, valueError for math.log of a
non-positive argument in OLS.llf, and attributeError for the assignment to
the setter-less property pvalF in OLS.get_pvalF line 191. -/
inductive Err where
  | linAlgError
  | indexError
  | assertionError
  | valueError
  | attributeError
deriving DecidableEq, Repr

/-- A Python float that is either an ordinary finite value (modelled
exactly by a rational) or the IEEE positive infinity numpy.inf, which the
degraded mode of get_pvals and get_pvalF stores. -/
inductive Flt where
  | val (q : ℚ)
  | inf
deriving DecidableEq, Repr

/-- The ambient environment of the module: the scipy availability flag
computed at import time, the scipy.stats CDF collaborators, the
irrational-valued math/numpy scalar functions, and the strings produced
from the wall clock by time.strftime in OLS.__init__ lines 150-152. -/
structure Env where
  have_scipy : Bool
  tcdf : ℚ → ℤ → ℚ
  fcdf : ℚ → ℤ → ℤ → ℚ
  sqrtFn : ℚ → ℚ
  logFn : ℚ → ℚ
  log2pi : ℚ
  dateStr : String
  timeStr : String

/-- Dot product of two vectors given as lists (numpy N.dot on 1-d
arrays). -/
def dotL (a b : List ℚ) : ℚ :=
  (List.zipWith (fun x y => x * y) a b).sum

/-- Transpose of a rectangular matrix given as a list of rows. -/
def transposeL (A : List (List ℚ)) : List (List ℚ) :=
  (List.range (A.headD []).length).map (fun j => A.map (fun r => r.getD j 0))

/-- Matrix product of rectangular matrices given as lists of rows. -/
def matMulL (A B : List (List ℚ)) : List (List ℚ) :=
  A.map (fun r => (transposeL B).map (fun c => dotL r c))

/-- Matrix-vector product. -/
def matVecL (A : List (List ℚ)) (v : List ℚ) : List ℚ :=
  A.map (fun r => dotL r v)

/-- Scalar multiple of a matrix. -/
def scaleML (c : ℚ) (A : List (List ℚ)) : List (List ℚ) :=
  A.map (fun r => r.map (fun x => c * x))

/-- Main diagonal of a square matrix (ndarray.diagonal). -/
def diagL (A : List (List ℚ)) : List ℚ :=
  (List.range A.length).map (fun i => (A.getD i []).getD i 0)

/-- Determinant by Laplace expansion along the first row, with an explicit
structural fuel so that concrete instances reduce inside the kernel.  This
is the determinant of the square matrix that the list of rows denotes. -/
def detAux : ℕ → List (List ℚ) → ℚ
  | 0, _ => 1
  | _ + 1, [] => 1
  | n + 1, r :: rest =>
      ((List.range r.length).map
        (fun j => (-1 : ℚ) ^ j * r.getD j 0 *
          detAux n (rest.map (fun row => row.eraseIdx j)))).sum

/-- Determinant of a square list matrix. -/
def detL (A : List (List ℚ)) : ℚ :=
  detAux A.length A

/-- Adjugate (transposed cofactor matrix) of a square list matrix; entry
(i, j) is (-1)^(i+j) times the minor obtained by deleting row j and column
i. -/
def adjugateL (A : List (List ℚ)) : List (List ℚ) :=
  (List.range A.length).map (fun i =>
    (List.range A.length).map (fun j =>
      (-1 : ℚ) ^ (i + j) * detL ((A.eraseIdx j).map (fun row => row.eraseIdx i))))

/-- Population variance of a list of rationals (ndarray.var with the
default ddof = 0, denominator the length). -/
def varL (l : List ℚ) : ℚ :=
  let m := l.sum / (l.length : ℚ)
  (l.map (fun x => (x - m) ^ 2)).sum / (l.length : ℚ)

/-- Append per-row extra entries to each row of a matrix: row i of the
result is row i of the input followed by the extra entries for index i.
This is numpy hstack of the matrix with the generated columns. -/
def augmentRows (X0 : List (List ℚ)) (f : ℕ → List ℚ) : List (List ℚ) :=
  (List.range X0.length).map (fun i => X0.getD i [] ++ f i)

/-- Default regressor name for 0-based index i: the Python format string
"x%02i" applied to i+1 in OLS.makeX line 227. -/
def defaultName (i : ℕ) : String :=
  if i + 1 < 10 then "x0" ++ toString (i + 1) else "x" ++ toString (i + 1)

/-- Default regressor names x01, x02, ... for k regressors. -/
def defaultNames (k : ℕ) : List String :=
  (List.range k).map defaultName

/-- Result of OLS.makeX: the design matrix and the bookkeeping attributes
that the method stores on self (nobs, nvars, ncoefs, indep_names). -/
structure MakeXResult where
  X : List (List ℚ)
  nobs : ℕ
  nvars : ℕ
  ncoefs : ℕ
  indep_names : List String
deriving DecidableEq, Repr

/-- OLS.makeX (src/pytrix/ls.py lines 220-250): build the design matrix
from the raw regressors, appending a constant column (the scalar constant
times a column of ones) when the constant flag is truthy (nonzero) and a
trend column with row-i entry i - trend offset when a trend offset is
given, in that order.  A one-row input matrix is transposed first (numpy
asmatrix of a flat Python list yields one row, which this turns back into
a column).  Inputs are rectangular nested lists, as everywhere in the
source. -/
def makeX (indep_names : List String) (indep : List (List ℚ)) (constant : ℚ)
    (trend : Option ℚ) : MakeXResult :=
  let X0 := if indep.length = 1 then transposeL indep else indep
  let nobs := X0.length
  let nvars := (X0.headD []).length
  let names0 := if indep_names = [] then defaultNames nvars else indep_names
  if constant ≠ 0 then
    match trend with
    | some t0 =>
        { X := augmentRows X0 (fun i => [constant, (i : ℚ) - t0]),
          nobs := nobs, nvars := nvars, ncoefs := nvars + 2,
          indep_names := names0 ++ ["Constant", "Trend"] }
    | none =>
        { X := augmentRows X0 (fun _ => [constant]),
          nobs := nobs, nvars := nvars, ncoefs := nvars + 1,
          indep_names := names0 ++ ["Constant"] }
  else
    match trend with
    | some t0 =>
        { X := augmentRows X0 (fun i => [(i : ℚ) - t0]),
          nobs := nobs, nvars := nvars, ncoefs := nvars + 1,
          indep_names := names0 ++ ["Trend"] }
    | none =>
        { X := X0, nobs := nobs, nvars := nvars, ncoefs := nvars,
          indep_names := names0 }

/-- The attributes of a constructed OLS instance (src/pytrix/ls.py lines
110-160).  The five trailing Option fields are the lazily computed caches
that __init__ initialises to None on lines 145-148 and 160; OLS.resids is
a property that returns the resids field unchanged. -/
structure OLS where
  X : List (List ℚ)
  nobs : ℕ
  nvars : ℕ
  ncoefs : ℕ
  indep_names : List String
  dep_name : String
  yvar : ℚ
  xTx : List (List ℚ)
  xTy : List ℚ
  fitted : List ℚ
  resids : List ℚ
  ess : ℚ
  coefs : List ℚ
  df_e : ℤ
  sigma2 : ℚ
  llf : ℚ
  aic : ℚ
  bic : ℚ
  date : String
  time : String
  R2 : ℚ
  R2adj : ℚ
  df_r : ℤ
  F : ℚ
  covC : Option (List (List ℚ))
  seC : Option (List ℚ)
  tvalsC : Option (List ℚ)
  pvalsC : Option (List Flt)
  pvalFC : Option Flt
deriving DecidableEq, Repr

/-- Model log-likelihood of OLS.llf line 216, with the math.log
collaborator and the float constant math.log(2*math.pi) taken from the
environment. -/
def llfOf (env : Env) (T : ℕ) (ess : ℚ) : ℚ :=
  -((T : ℚ) * 1 / 2) * (1 + env.log2pi) - ((T : ℚ) / 2) * env.logFn (ess / (T : ℚ))

/-- AIC criterion of OLS.llf line 217. -/
def aicOf (env : Env) (T k : ℕ) (ess : ℚ) : ℚ :=
  -2 * llfOf env T ess / (T : ℚ) + 2 * (k : ℚ) / (T : ℚ)

/-- BIC criterion of OLS.llf line 218. -/
def bicOf (env : Env) (T k : ℕ) (ess : ℚ) : ℚ :=
  -2 * llfOf env T ess / (T : ℚ) + ((k : ℚ) * env.logFn (T : ℚ)) / (T : ℚ)

/-- OLS.__init__ (src/pytrix/ls.py lines 110-160).  The failure points, in
the order execution reaches them:
1. numpy.linalg.lstsq raises LinAlgError when rows(X) differs from
   rows(Y) = len(dep) (line 124; the try block catches only ImportError).
2. Line 126 subscripts the residual-sum array returned by lstsq, which is
   empty unless rank(X) = ncoefs and nobs > ncoefs, so an IndexError is
   raised whenever nobs <= ncoefs or det(transpose(X) * X) = 0.
3. The assert on line 129 compares len(dep) with len(indep) (the raw
   nested list, before the one-row transpose in makeX).  The embedding
   takes indep as the two-dimensional nested-list input, whose len is its
   row count; a flat one-dimensional Python list, whose len is its element
   count, is not a separate surface form here, and every claim concerns
   matrix inputs or is stated away from the one-row case.
4. OLS.llf (called on line 143) applies math.log to ess/nobs, which
   raises ValueError when ess = 0 (a perfect fit).
The assert on line 137 compares the lstsq residual sum with the dot
product of the recomputed residuals; over the rationals the two coincide,
so it never fires and ess is defined by that common value.  The division
by yvar on line 156 and by df_r on line 159 are numpy float divisions
that produce non-finite values without raising when the denominator is
zero; no claim depends on those values and the rational convention q/0 = 0
stands in for them. -/
def olsInit (env : Env) (dep : List ℚ) (indep : List (List ℚ))
    (dep_name : String) (indep_names : List String) (constant : ℚ)
    (trend : Option ℚ) : Except Err OLS :=
  let mk := makeX indep_names indep constant trend
  if mk.X.length = dep.length then
    let xtx := matMulL (transposeL mk.X) mk.X
    let xty := matVecL (transposeL mk.X) dep
    let d := detL xtx
    if mk.ncoefs < mk.X.length ∧ d ≠ 0 then
      let coefs := matVecL (scaleML d⁻¹ (adjugateL xtx)) xty
      let fitted := matVecL mk.X coefs
      let resids := List.zipWith (fun a b => a - b) dep fitted
      let ess := dotL resids resids
      if dep.length = indep.length then
        if ess = 0 then .error .valueError
        else
          let R2v := 1 - varL resids / varL dep
          .ok { X := mk.X, nobs := mk.nobs, nvars := mk.nvars,
                ncoefs := mk.ncoefs, indep_names := mk.indep_names,
                dep_name := if dep_name = "" then "y" else dep_name,
                yvar := varL dep, xTx := xtx, xTy := xty,
                fitted := fitted, resids := resids, ess := ess,
                coefs := coefs,
                df_e := (mk.nobs : ℤ) - (mk.ncoefs : ℤ),
                sigma2 := ess / ((mk.nobs : ℚ) - (mk.ncoefs : ℚ)),
                llf := llfOf env mk.nobs ess,
                aic := aicOf env mk.nobs mk.ncoefs ess,
                bic := bicOf env mk.nobs mk.ncoefs ess,
                date := env.dateStr, time := env.timeStr,
                R2 := R2v,
                R2adj := 1 - (1 - R2v) *
                  (((mk.nobs : ℚ) - 1) / ((mk.nobs : ℚ) - (mk.ncoefs : ℚ))),
                df_r := (mk.ncoefs : ℤ) - 1,
                F := (R2v / ((mk.ncoefs : ℚ) - 1)) /
                  ((1 - R2v) / ((mk.nobs : ℚ) - (mk.ncoefs : ℚ))),
                covC := none, seC := none, tvalsC := none,
                pvalsC := none, pvalFC := none }
      else .error .assertionError
    else .error .indexError
  else .error .linAlgError

/-- OLS.get_cov (lines 161-166): return the cached covariance matrix, or
compute sigma2 times the inverse of xTx.  numpy.matrix.I on the square
matrix xTx raises numpy.linalg.LinAlgError when xTx is singular, which
over the rationals is exactly when its determinant vanishes; on the error
path the instance is left unchanged.  The result is returned together
with the possibly updated instance. -/
def get_cov (s : OLS) : Except Err (List (List ℚ)) × OLS :=
  match s.covC with
  | some c => (.ok c, s)
  | none =>
      let d := detL s.xTx
      if d = 0 then (.error .linAlgError, s)
      else
        let c := scaleML s.sigma2 (scaleML d⁻¹ (adjugateL s.xTx))
        (.ok c, { s with covC := some c })

/-- OLS.get_standard_errors (lines 168-172): numpy sqrt of the diagonal of
the covariance matrix, going through the cov property (so a cov cache
fill can happen as a side effect). -/
def get_se (env : Env) (s : OLS) : Except Err (List ℚ) × OLS :=
  match s.seC with
  | some v => (.ok v, s)
  | none =>
      match get_cov s with
      | (.error e, s1) => (.error e, s1)
      | (.ok c, s1) =>
          let v := (diagL c).map env.sqrtFn
          (.ok v, { s1 with seC := some v })

/-- OLS.get_tvals (lines 174-177): elementwise coefs divided by the
standard errors, through the se property. -/
def get_tvals (env : Env) (s : OLS) : Except Err (List ℚ) × OLS :=
  match s.tvalsC with
  | some v => (.ok v, s)
  | none =>
      match get_se env s with
      | (.error e, s1) => (.error e, s1)
      | (.ok se, s1) =>
          let v := List.zipWith (fun a b => a / b) s.coefs se
          (.ok v, { s1 with tvalsC := some v })

/-- OLS.get_pvals (lines 179-186): with scipy available, two-sided
Student-t p-values computed elementwise from the absolute t-ratios with
df_e degrees of freedom; without scipy, a list of ncoefs copies of
numpy.inf (the degraded mode), built without touching the t-ratios. -/
def get_pvals (env : Env) (s : OLS) : Except Err (List Flt) × OLS :=
  match s.pvalsC with
  | some v => (.ok v, s)
  | none =>
      if env.have_scipy then
        match get_tvals env s with
        | (.error e, s1) => (.error e, s1)
        | (.ok tv, s1) =>
            let v := tv.map (fun t => Flt.val ((1 - env.tcdf |t| s.df_e) * 2))
            (.ok v, { s1 with pvalsC := some v })
      else
        let v := List.replicate s.ncoefs Flt.inf
        (.ok v, { s with pvalsC := some v })

/-- OLS.get_pvalF (lines 188-196).  With scipy available the code computes
1 - stats.f.cdf(F, df_r, df_e) and then executes the statement
self.pvalF = ..., but pvalF is a property built with fset = None (line
197), so the assignment raises AttributeError and nothing is cached; the
instance is unchanged.  Without scipy, the private cache is set to
numpy.inf and that value is returned (after being printed). -/
def get_pvalF (env : Env) (s : OLS) : Except Err Flt × OLS :=
  match s.pvalFC with
  | some v => (.ok v, s)
  | none =>
      if env.have_scipy then (.error .attributeError, s)
      else (.ok Flt.inf, { s with pvalFC := some Flt.inf })

/-- OLS.get_resids (lines 198-199): the resids property returns the stored
residual vector without any side effect. -/
def get_resids (s : OLS) : List ℚ :=
  s.resids

deriving instance DecidableEq for Except

/-- Erase the two wall-clock fields, keeping every statistical field.  Two
instances agree after stripClock exactly when they agree on everything
except the date and time recorded at construction. -/
def stripClock (s : OLS) : OLS :=
  { s with date := "", time := "" }

/-- Erase the five lazy caches, keeping the base fields computed by
__init__.  Two instances agree after stripCaches exactly when they agree
on every base field. -/
def stripCaches (s : OLS) : OLS :=
  { s with covC := none, seC := none, tvalsC := none, pvalsC := none,
           pvalFC := none }

/-- Monotone evolution of the five caches: every cache that was already
computed keeps exactly its value (a field can only transition from
uncomputed to computed, never change or be recomputed to something
else). -/
def cacheMono (s s1 : OLS) : Prop :=
  (∀ v, s.covC = some v → s1.covC = some v) ∧
  (∀ v, s.seC = some v → s1.seC = some v) ∧
  (∀ v, s.tvalsC = some v → s1.tvalsC = some v) ∧
  (∀ v, s.pvalsC = some v → s1.pvalsC = some v) ∧
  (∀ v, s.pvalFC = some v → s1.pvalFC = some v)

/-- The point estimates and fit quality named by the degraded-mode claim:
coefficients, residuals and R squared. -/
def pointStats (s : OLS) : List ℚ × List ℚ × ℚ :=
  (s.coefs, s.resids, s.R2)

/-- Recompute the environment-dependent fields of an instance for a new
environment: the log-likelihood block (which depends on the math.log
collaborator) and the two wall-clock strings.  Every other field of
__init__ is a pure function of the data. -/
def reclock (env : Env) (s : OLS) : OLS :=
  { s with llf := llfOf env s.nobs s.ess,
           aic := aicOf env s.nobs s.ncoefs s.ess,
           bic := bicOf env s.nobs s.ncoefs s.ess,
           date := env.dateStr, time := env.timeStr }

/-- Reference environment: scipy absent, all abstract collaborators
constantly zero, empty clock strings. -/
def envRef : Env :=
  { have_scipy := false, tcdf := fun _ _ => 0, fcdf := fun _ _ _ => 0,
    sqrtFn := fun _ => 0, logFn := fun _ => 0, log2pi := 0,
    dateStr := "", timeStr := "" }

/-- The reference environment with the scipy collaborator present. -/
def envT : Env :=
  { envRef with have_scipy := true }

/-- The reference environment observed at a different wall-clock time. -/
def envClk : Env :=
  { envRef with dateStr := "Mon, 01 Jan 2007", timeStr := "00:00:01" }

/-- Concrete dependent data for the worked fit. -/
def depA : List ℚ :=
  [1, 2, 4]

/-- Concrete independent data (three observations of one regressor) for
the worked fit. -/
def indepA : List (List ℚ) :=
  [[1], [2], [3]]

/-- The instance that olsInit envRef depA indepA with the default constant
produces, written out field by field. -/
def fitA : OLS :=
  { X := [[1, 1], [2, 1], [3, 1]], nobs := 3, nvars := 1, ncoefs := 2,
    indep_names := ["x01", "Constant"], dep_name := "y",
    yvar := 14/9, xTx := [[14, 6], [6, 3]], xTy := [17, 7],
    fitted := [5/6, 7/3, 23/6], resids := [1/6, -1/3, 1/6],
    ess := 1/6, coefs := [3/2, -2/3], df_e := 1, sigma2 := 1/6,
    llf := -3/2, aic := 7/3, bic := 1, date := "", time := "",
    R2 := 27/28, R2adj := 13/14, df_r := 1, F := 27,
    covC := none, seC := none, tvalsC := none, pvalsC := none,
    pvalFC := none }

/-- A hand-built instance whose xTx is singular, for exercising the
covariance getter on a non-invertible moment matrix. -/
def sSing : OLS :=
  { fitA with xTx := [[1, 1], [1, 1]] }

/-- A second hand-built instance with a different singular xTx. -/
def sSing2 : OLS :=
  { fitA with xTx := [[2, 2], [3, 3]] }

/-- A hand-built instance with some caches already computed, for
exercising the memoized getters. -/
def sMemo : OLS :=
  { fitA with covC := some [[7]], tvalsC := some [9],
              pvalFC := some Flt.inf }

/-- The instance that olsInit envClk depA indepA produces: fitA observed
at the envClk wall-clock time. -/
def fitAClk : OLS :=
  { fitA with date := "Mon, 01 Jan 2007", time := "00:00:01" }

theorem augmentRows_length (X0 : List (List ℚ)) (f : ℕ → List ℚ) :
    (augmentRows X0 f).length = X0.length := by
  simp [augmentRows]

theorem augmentRows_getD (X0 : List (List ℚ)) (f : ℕ → List ℚ) (i : ℕ)
    (h : i < X0.length) :
    (augmentRows X0 f).getD i [] = X0.getD i [] ++ f i := by
  simp [augmentRows, List.getD_eq_getElem?_getD, List.getElem?_map,
    List.getElem?_range h]

theorem mem_augmentRows (X0 : List (List ℚ)) (f : ℕ → List ℚ)
    (r : List ℚ) (hr : r ∈ augmentRows X0 f) :
    ∃ i, i < X0.length ∧ r = X0.getD i [] ++ f i := by
  simp only [augmentRows, List.mem_map, List.mem_range] at hr
  obtain ⟨i, hi, hri⟩ := hr
  exact ⟨i, hi, hri.symm⟩

theorem makeX_X_length (nm : List String) (ind : List (List ℚ)) (c : ℚ)
    (tr : Option ℚ) (h : ind.length ≠ 1) :
    (makeX nm ind c tr).X.length = ind.length := by
  by_cases hc : c = 0 <;> cases tr <;>
    simp [makeX, h, hc, augmentRows_length]

theorem olsInit_ok_spec (env : Env) (dep : List ℚ) (indep : List (List ℚ))
    (dn : String) (nm : List String) (c : ℚ) (tr : Option ℚ) (fit : OLS)
    (h : olsInit env dep indep dn nm c tr = .ok fit) :
    fit.X = (makeX nm indep c tr).X ∧
    fit.nobs = (makeX nm indep c tr).nobs ∧
    fit.ncoefs = (makeX nm indep c tr).ncoefs ∧
    fit.fitted = matVecL fit.X fit.coefs ∧
    fit.resids = List.zipWith (fun a b => a - b) dep fit.fitted ∧
    fit.ess = dotL fit.resids fit.resids ∧
    fit.covC = none ∧ fit.seC = none ∧ fit.tvalsC = none ∧
    fit.pvalsC = none ∧ fit.pvalFC = none := by
  simp only [olsInit] at h
  split at h
  · split at h
    · split at h
      · split at h
        · exact Except.noConfusion h
        · cases h
          refine ⟨rfl, rfl, rfl, rfl, rfl, rfl, rfl, rfl, rfl, rfl, rfl⟩
      · exact Except.noConfusion h
    · exact Except.noConfusion h
  · exact Except.noConfusion h

theorem olsInit_eq_ref (env : Env) (dep : List ℚ) (indep : List (List ℚ))
    (dn : String) (nm : List String) (c : ℚ) (tr : Option ℚ) :
    olsInit env dep indep dn nm c tr =
      (olsInit envRef dep indep dn nm c tr).map (reclock env) := by
  simp only [olsInit]
  split
  · split
    · split
      · split
        · rfl
        · rfl
      · rfl
    · rfl
  · rfl

theorem pointStats_reclock (e : Env) (f : OLS) :
    pointStats (reclock e f) = pointStats f := rfl

theorem olsInit_pointStats_env (env env' : Env) (dep : List ℚ)
    (indep : List (List ℚ)) (dn : String) (nm : List String) (c : ℚ)
    (tr : Option ℚ) :
    (olsInit env dep indep dn nm c tr).toOption.map pointStats =
      (olsInit env' dep indep dn nm c tr).toOption.map pointStats := by
  rw [olsInit_eq_ref env, olsInit_eq_ref env']
  cases olsInit envRef dep indep dn nm c tr <;> rfl

theorem stripClock_reclock (e e' : Env) (h5 : e.logFn = e'.logFn)
    (h6 : e.log2pi = e'.log2pi) (f : OLS) :
    stripClock (reclock e f) = stripClock (reclock e' f) := by
  simp only [stripClock, reclock, llfOf, aicOf, bicOf, h5, h6]

theorem reclock_covC (e : Env) (f : OLS) : (reclock e f).covC = f.covC := rfl

theorem reclock_seC (e : Env) (f : OLS) : (reclock e f).seC = f.seC := rfl

theorem reclock_tvalsC (e : Env) (f : OLS) :
    (reclock e f).tvalsC = f.tvalsC := rfl

theorem reclock_pvalsC (e : Env) (f : OLS) :
    (reclock e f).pvalsC = f.pvalsC := rfl

theorem reclock_pvalFC (e : Env) (f : OLS) :
    (reclock e f).pvalFC = f.pvalFC := rfl

theorem reclock_xTx (e : Env) (f : OLS) : (reclock e f).xTx = f.xTx := rfl

theorem get_cov_reclock (e : Env) (f : OLS) :
    get_cov (reclock e f) = ((get_cov f).1, reclock e (get_cov f).2) := by
  rcases hc : f.covC with _ | cv
  · simp only [get_cov, reclock_covC, reclock_xTx, hc]
    by_cases hd : detL f.xTx = 0
    · rw [if_pos hd, if_pos hd]
    · rw [if_neg hd, if_neg hd]
      rfl
  · simp only [get_cov, reclock_covC, hc]

theorem reclock_coefs (e : Env) (f : OLS) : (reclock e f).coefs = f.coefs := rfl

theorem reclock_ncoefs (e : Env) (f : OLS) :
    (reclock e f).ncoefs = f.ncoefs := rfl

theorem reclock_df_e (e : Env) (f : OLS) : (reclock e f).df_e = f.df_e := rfl

theorem get_cov_memo (s : OLS) (v : List (List ℚ)) (h : s.covC = some v) :
    get_cov s = (.ok v, s) := by
  simp only [get_cov, h]

theorem get_se_memo (g : Env) (s : OLS) (v : List ℚ) (h : s.seC = some v) :
    get_se g s = (.ok v, s) := by
  simp only [get_se, h]

theorem get_tvals_memo (g : Env) (s : OLS) (v : List ℚ)
    (h : s.tvalsC = some v) : get_tvals g s = (.ok v, s) := by
  simp only [get_tvals, h]

theorem get_pvals_memo (g : Env) (s : OLS) (v : List Flt)
    (h : s.pvalsC = some v) : get_pvals g s = (.ok v, s) := by
  simp only [get_pvals, h]

theorem get_pvalF_memo (g : Env) (s : OLS) (v : Flt) (h : s.pvalFC = some v) :
    get_pvalF g s = (.ok v, s) := by
  simp only [get_pvalF, h]

theorem get_cov_form (s : OLS) :
    (∃ v, s.covC = some v ∧ get_cov s = (.ok v, s)) ∨
    (s.covC = none ∧ get_cov s = (.error .linAlgError, s)) ∨
    (∃ v, s.covC = none ∧ get_cov s = (.ok v, { s with covC := some v })) := by
  rcases hc : s.covC with _ | cv
  · by_cases hd : detL s.xTx = 0
    · refine Or.inr (Or.inl ⟨rfl, ?_⟩)
      simp only [get_cov, hc]
      rw [if_pos hd]
    · refine Or.inr (Or.inr
        ⟨scaleML s.sigma2 (scaleML (detL s.xTx)⁻¹ (adjugateL s.xTx)), rfl, ?_⟩)
      simp only [get_cov, hc]
      rw [if_neg hd]
  · exact Or.inl ⟨cv, rfl, get_cov_memo s cv hc⟩

theorem get_se_form (g : Env) (s : OLS) :
    (∃ v, s.seC = some v ∧ get_se g s = (.ok v, s)) ∨
    (∃ e1, s.seC = none ∧ get_se g s = (.error e1, s)) ∨
    (∃ v oc, s.seC = none ∧
      get_se g s = (.ok v, { s with covC := oc, seC := some v }) ∧
      (∀ w, s.covC = some w → oc = some w)) := by
  rcases hs : s.seC with _ | sv
  · rcases get_cov_form s with ⟨cv, hc, hcv⟩ | ⟨hc, hcv⟩ | ⟨cv, hc, hcv⟩
    · refine Or.inr (Or.inr
        ⟨(diagL cv).map g.sqrtFn, s.covC, rfl, ?_, fun w hw => hw⟩)
      simp only [get_se, hs, hcv]
    · refine Or.inr (Or.inl ⟨.linAlgError, rfl, ?_⟩)
      simp only [get_se, hs, hcv]
    · refine Or.inr (Or.inr
        ⟨(diagL cv).map g.sqrtFn, some cv, rfl, ?_, fun w hw => by
          rw [hc] at hw; cases hw⟩)
      simp only [get_se, hs, hcv]
  · exact Or.inl ⟨sv, rfl, get_se_memo g s sv hs⟩

theorem get_tvals_form (g : Env) (s : OLS) :
    (∃ v, s.tvalsC = some v ∧ get_tvals g s = (.ok v, s)) ∨
    (∃ e1, s.tvalsC = none ∧ get_tvals g s = (.error e1, s)) ∨
    (∃ v oc os, s.tvalsC = none ∧
      get_tvals g s = (.ok v, { s with covC := oc, seC := os, tvalsC := some v }) ∧
      (∀ w, s.covC = some w → oc = some w) ∧
      (∀ w, s.seC = some w → os = some w)) := by
  rcases ht : s.tvalsC with _ | tv
  · rcases get_se_form g s with ⟨sv, hs, hsv⟩ | ⟨e1, hs, hsv⟩ |
      ⟨sv, oc, hs, hsv, hmono⟩
    · refine Or.inr (Or.inr
        ⟨List.zipWith (fun a b => a / b) s.coefs sv, s.covC, s.seC, rfl, ?_,
          fun w hw => hw, fun w hw => hw⟩)
      simp only [get_tvals, ht, hsv]
    · refine Or.inr (Or.inl ⟨e1, rfl, ?_⟩)
      simp only [get_tvals, ht, hsv]
    · refine Or.inr (Or.inr
        ⟨List.zipWith (fun a b => a / b) s.coefs sv, oc, some sv, rfl, ?_,
          hmono, fun w hw => by rw [hs] at hw; cases hw⟩)
      simp only [get_tvals, ht, hsv]
  · exact Or.inl ⟨tv, rfl, get_tvals_memo g s tv ht⟩

theorem get_pvals_form (g : Env) (s : OLS) :
    (∃ v, s.pvalsC = some v ∧ get_pvals g s = (.ok v, s)) ∨
    (∃ e1, s.pvalsC = none ∧ get_pvals g s = (.error e1, s)) ∨
    (∃ v oc os ot, s.pvalsC = none ∧
      get_pvals g s =
        (.ok v, { s with covC := oc, seC := os, tvalsC := ot,
                         pvalsC := some v }) ∧
      (∀ w, s.covC = some w → oc = some w) ∧
      (∀ w, s.seC = some w → os = some w) ∧
      (∀ w, s.tvalsC = some w → ot = some w)) := by
  rcases hp : s.pvalsC with _ | pv
  · by_cases hsc : g.have_scipy = true
    · rcases get_tvals_form g s with ⟨tv, ht, htv⟩ | ⟨e1, ht, htv⟩ |
        ⟨tv, oc, os, ht, htv, hmc, hms⟩
      · refine Or.inr (Or.inr
          ⟨tv.map (fun t => Flt.val ((1 - g.tcdf |t| s.df_e) * 2)),
            s.covC, s.seC, s.tvalsC, rfl, ?_,
            fun w hw => hw, fun w hw => hw, fun w hw => hw⟩)
        simp only [get_pvals, hp, hsc, if_true, htv]
      · refine Or.inr (Or.inl ⟨e1, rfl, ?_⟩)
        simp only [get_pvals, hp, hsc, if_true, htv]
      · refine Or.inr (Or.inr
          ⟨tv.map (fun t => Flt.val ((1 - g.tcdf |t| s.df_e) * 2)),
            oc, os, some tv, rfl, ?_, hmc, hms,
            fun w hw => by rw [ht] at hw; cases hw⟩)
        simp only [get_pvals, hp, hsc, if_true, htv]
    · refine Or.inr (Or.inr
        ⟨List.replicate s.ncoefs Flt.inf, s.covC, s.seC, s.tvalsC, rfl, ?_,
          fun w hw => hw, fun w hw => hw, fun w hw => hw⟩)
      simp only [get_pvals, hp, hsc, Bool.false_eq_true, if_false]
  · exact Or.inl ⟨pv, rfl, get_pvals_memo g s pv hp⟩

theorem get_pvalF_form (g : Env) (s : OLS) :
    (∃ v, s.pvalFC = some v ∧ get_pvalF g s = (.ok v, s)) ∨
    (s.pvalFC = none ∧ g.have_scipy = true ∧
      get_pvalF g s = (.error .attributeError, s)) ∨
    (s.pvalFC = none ∧ g.have_scipy = false ∧
      get_pvalF g s = (.ok Flt.inf, { s with pvalFC := some Flt.inf })) := by
  rcases hp : s.pvalFC with _ | pv
  · by_cases hsc : g.have_scipy = true
    · exact Or.inr (Or.inl ⟨rfl, hsc, by simp only [get_pvalF, hp, hsc, if_true]⟩)
    · refine Or.inr (Or.inr ⟨rfl, by simpa using hsc, ?_⟩)
      simp only [get_pvalF, hp, hsc, Bool.false_eq_true, if_false]
  · exact Or.inl ⟨pv, rfl, get_pvalF_memo g s pv hp⟩

theorem cacheMono_refl (s : OLS) : cacheMono s s :=
  ⟨fun _ h => h, fun _ h => h, fun _ h => h, fun _ h => h, fun _ h => h⟩

theorem c9_cov (s : OLS) :
    stripCaches (get_cov s).2 = stripCaches s ∧ cacheMono s (get_cov s).2 ∧
    get_cov (get_cov s).2 = get_cov s := by
  rcases get_cov_form s with ⟨v, hc, h⟩ | ⟨hc, h⟩ | ⟨v, hc, h⟩
  · refine ⟨by rw [h], by rw [h]; exact cacheMono_refl s, ?_⟩
    rw [h]
    exact h
  · refine ⟨by rw [h], by rw [h]; exact cacheMono_refl s, ?_⟩
    rw [h]
    exact h
  · refine ⟨by rw [h]; rfl, ?_, ?_⟩
    · rw [h]
      exact ⟨fun w hw => (by rw [hc] at hw; cases hw),
        fun w hw => hw, fun w hw => hw, fun w hw => hw, fun w hw => hw⟩
    · rw [h]
      exact get_cov_memo _ v rfl

theorem c9_se (g : Env) (s : OLS) :
    stripCaches (get_se g s).2 = stripCaches s ∧ cacheMono s (get_se g s).2 ∧
    get_se g (get_se g s).2 = get_se g s := by
  rcases get_se_form g s with ⟨v, hs, h⟩ | ⟨e1, hs, h⟩ | ⟨v, oc, hs, h, hmono⟩
  · refine ⟨by rw [h], by rw [h]; exact cacheMono_refl s, ?_⟩
    rw [h]
    exact h
  · refine ⟨by rw [h], by rw [h]; exact cacheMono_refl s, ?_⟩
    rw [h]
    exact h
  · refine ⟨by rw [h]; rfl, ?_, ?_⟩
    · rw [h]
      exact ⟨fun w hw => hmono w hw,
        fun w hw => (by rw [hs] at hw; cases hw),
        fun w hw => hw, fun w hw => hw, fun w hw => hw⟩
    · rw [h]
      exact get_se_memo g _ v rfl

theorem c9_tvals (g : Env) (s : OLS) :
    stripCaches (get_tvals g s).2 = stripCaches s ∧
    cacheMono s (get_tvals g s).2 ∧
    get_tvals g (get_tvals g s).2 = get_tvals g s := by
  rcases get_tvals_form g s with ⟨v, ht, h⟩ | ⟨e1, ht, h⟩ |
    ⟨v, oc, os, ht, h, hmc, hms⟩
  · refine ⟨by rw [h], by rw [h]; exact cacheMono_refl s, ?_⟩
    rw [h]
    exact h
  · refine ⟨by rw [h], by rw [h]; exact cacheMono_refl s, ?_⟩
    rw [h]
    exact h
  · refine ⟨by rw [h]; rfl, ?_, ?_⟩
    · rw [h]
      exact ⟨fun w hw => hmc w hw, fun w hw => hms w hw,
        fun w hw => (by rw [ht] at hw; cases hw),
        fun w hw => hw, fun w hw => hw⟩
    · rw [h]
      exact get_tvals_memo g _ v rfl

theorem c9_pvals (g : Env) (s : OLS) :
    stripCaches (get_pvals g s).2 = stripCaches s ∧
    cacheMono s (get_pvals g s).2 ∧
    get_pvals g (get_pvals g s).2 = get_pvals g s := by
  rcases get_pvals_form g s with ⟨v, hp, h⟩ | ⟨e1, hp, h⟩ |
    ⟨v, oc, os, ot, hp, h, hmc, hms, hmt⟩
  · refine ⟨by rw [h], by rw [h]; exact cacheMono_refl s, ?_⟩
    rw [h]
    exact h
  · refine ⟨by rw [h], by rw [h]; exact cacheMono_refl s, ?_⟩
    rw [h]
    exact h
  · refine ⟨by rw [h]; rfl, ?_, ?_⟩
    · rw [h]
      exact ⟨fun w hw => hmc w hw, fun w hw => hms w hw,
        fun w hw => hmt w hw,
        fun w hw => (by rw [hp] at hw; cases hw), fun w hw => hw⟩
    · rw [h]
      exact get_pvals_memo g _ v rfl

theorem c9_pvalF (g : Env) (s : OLS) :
    stripCaches (get_pvalF g s).2 = stripCaches s ∧
    cacheMono s (get_pvalF g s).2 ∧
    get_pvalF g (get_pvalF g s).2 = get_pvalF g s := by
  rcases get_pvalF_form g s with ⟨v, hp, h⟩ | ⟨hp, hsc, h⟩ | ⟨hp, hsc, h⟩
  · refine ⟨by rw [h], by rw [h]; exact cacheMono_refl s, ?_⟩
    rw [h]
    exact h
  · refine ⟨by rw [h], by rw [h]; exact cacheMono_refl s, ?_⟩
    rw [h]
    exact h
  · refine ⟨by rw [h]; rfl, ?_, ?_⟩
    · rw [h]
      exact ⟨fun w hw => hw, fun w hw => hw, fun w hw => hw, fun w hw => hw,
        fun w hw => (by rw [hp] at hw; cases hw)⟩
    · rw [h]
      exact get_pvalF_memo g _ Flt.inf rfl

theorem get_se_reclock (g e : Env) (f : OLS) :
    get_se g (reclock e f) = ((get_se g f).1, reclock e (get_se g f).2) := by
  rcases hs : f.seC with _ | sv
  · rcases hcv : get_cov f with ⟨r, s1⟩
    rcases r with er | cv <;>
      simp only [get_se, reclock_seC, hs, get_cov_reclock, hcv] <;> rfl
  · simp only [get_se, reclock_seC, hs]

theorem get_tvals_reclock (g e : Env) (f : OLS) :
    get_tvals g (reclock e f) =
      ((get_tvals g f).1, reclock e (get_tvals g f).2) := by
  rcases ht : f.tvalsC with _ | tv
  · rcases hse : get_se g f with ⟨r, s1⟩
    rcases r with er | sv <;>
      simp only [get_tvals, reclock_tvalsC, reclock_coefs, ht,
        get_se_reclock, hse] <;> rfl
  · simp only [get_tvals, reclock_tvalsC, ht]

theorem get_pvals_reclock (g e : Env) (f : OLS) :
    get_pvals g (reclock e f) =
      ((get_pvals g f).1, reclock e (get_pvals g f).2) := by
  rcases hp : f.pvalsC with _ | pv
  · by_cases hsc : g.have_scipy = true
    · rcases htv : get_tvals g f with ⟨r, s1⟩
      rcases r with er | tv <;>
        simp only [get_pvals, reclock_pvalsC, reclock_df_e, reclock_ncoefs,
          hp, hsc, if_true, get_tvals_reclock, htv] <;> rfl
    · simp only [get_pvals, reclock_pvalsC, reclock_ncoefs, hp, hsc,
        Bool.false_eq_true, if_false]
      rfl
  · simp only [get_pvals, reclock_pvalsC, hp]

theorem get_pvalF_reclock (g e : Env) (f : OLS) :
    get_pvalF g (reclock e f) =
      ((get_pvalF g f).1, reclock e (get_pvalF g f).2) := by
  rcases hp : f.pvalFC with _ | pv
  · by_cases hsc : g.have_scipy = true
    · simp only [get_pvalF, reclock_pvalFC, hp, hsc, if_true]
    · simp only [get_pvalF, reclock_pvalFC, hp, hsc, Bool.false_eq_true,
        if_false]
      rfl
  · simp only [get_pvalF, reclock_pvalFC, hp]

theorem get_se_env (g g' : Env) (h : g.sqrtFn = g'.sqrtFn) (f : OLS) :
    get_se g f = get_se g' f := by
  rcases hs : f.seC with _ | sv <;> simp only [get_se, hs, h]

theorem get_tvals_env (g g' : Env) (h : g.sqrtFn = g'.sqrtFn) (f : OLS) :
    get_tvals g f = get_tvals g' f := by
  rcases ht : f.tvalsC with _ | tv <;>
    simp only [get_tvals, ht, get_se_env g g' h f]

theorem get_pvals_env (g g' : Env) (h1 : g.have_scipy = g'.have_scipy)
    (h2 : g.tcdf = g'.tcdf) (h3 : g.sqrtFn = g'.sqrtFn) (f : OLS) :
    get_pvals g f = get_pvals g' f := by
  rcases hp : f.pvalsC with _ | pv <;>
    simp only [get_pvals, hp, h1, h2, get_tvals_env g g' h3 f]

theorem get_pvalF_env (g g' : Env) (h1 : g.have_scipy = g'.have_scipy)
    (f : OLS) : get_pvalF g f = get_pvalF g' f := by
  rcases hp : f.pvalFC with _ | pv <;> simp only [get_pvalF, hp, h1]

/-- C1: for every successful fit, the residual vector equals the dependent
variable minus the design matrix times the coefficient vector, and the
stored sum of squared errors agrees with the dot product of the residuals
with themselves.  Over the exact-rational model the agreement is exact
equality, hence in particular within the 1e-3 absolute tolerance the code
asserts on line 137 and within the 1e-6 the spec demands. -/
theorem c1_residual_identity (env : Env) (dep : List ℚ)
    (indep : List (List ℚ)) (dn : String) (nm : List String) (c : ℚ)
    (tr : Option ℚ) (fit : OLS)
    (h : olsInit env dep indep dn nm c tr = .ok fit) :
    fit.resids =
      List.zipWith (fun a b => a - b) dep (matVecL fit.X fit.coefs) ∧
    fit.ess = dotL fit.resids fit.resids ∧
    |fit.ess - dotL fit.resids fit.resids| < 1/1000 ∧
    |fit.ess - dotL fit.resids fit.resids| ≤ 1/1000000 := by
  obtain ⟨-, -, -, hfit, hres, hess, -, -, -, -, -⟩ :=
    olsInit_ok_spec env dep indep dn nm c tr fit h
  refine ⟨?_, hess, ?_, ?_⟩
  · rw [hres, hfit]
  · rw [hess, sub_self, abs_zero]
    norm_num
  · rw [hess, sub_self, abs_zero]
    norm_num

/-- Witness for c1_residual_identity at the concrete fit fitA of depA on
indepA with an intercept. -/
theorem c1_residual_identity_witness :
    fitA.resids =
      List.zipWith (fun a b => a - b) depA (matVecL fitA.X fitA.coefs) ∧
    fitA.ess = dotL fitA.resids fitA.resids ∧
    |fitA.ess - dotL fitA.resids fitA.resids| < 1/1000 ∧
    |fitA.ess - dotL fitA.resids fitA.resids| ≤ 1/1000000 :=
  c1_residual_identity envRef depA indepA "" [] 1 none fitA
    (by with_unfolding_all decide)

/-- C2 counterexample: with two observations and two final regressors
(T = K', df_error = 0) the construction fails, but the exception is the
IndexError from subscripting the empty least-squares residual array, not a
DegreesOfFreedomError: the code defines no such exception class. -/
theorem c2_counterexample :
    olsInit envRef [1, 2] [[1], [2]] "" [] 1 none = .error .indexError := by
  with_unfolding_all decide

/-- C2 amended: whenever the row count of the design matrix matches the
dependent length T and T is at most the final regressor count K',
construction fails with IndexError (the lstsq residual array is empty) and
no partially built result is exposed. -/
theorem c2_amended (env : Env) (dep : List ℚ) (indep : List (List ℚ))
    (dn : String) (nm : List String) (c : ℚ) (tr : Option ℚ)
    (h1 : (makeX nm indep c tr).X.length = dep.length)
    (h2 : dep.length ≤ (makeX nm indep c tr).ncoefs) :
    olsInit env dep indep dn nm c tr = .error .indexError := by
  simp only [olsInit, if_pos h1]
  have hcond : ¬((makeX nm indep c tr).ncoefs < (makeX nm indep c tr).X.length ∧
      detL (matMulL (transposeL (makeX nm indep c tr).X)
        (makeX nm indep c tr).X) ≠ 0) := by
    rintro ⟨hlt, -⟩
    rw [h1] at hlt
    omega
  rw [if_neg hcond]

/-- Witness for c2_amended: three observations, two regressors plus an
intercept, so T = K' = 3. -/
theorem c2_amended_witness :
    olsInit envRef [1, 2, 3] [[1, 0], [0, 1], [1, 1]] "" [] 1 none =
      .error .indexError :=
  c2_amended envRef [1, 2, 3] [[1, 0], [0, 1], [1, 1]] "" [] 1 none
    (by with_unfolding_all decide) (by with_unfolding_all decide)

/-- C6 counterexample: three dependent values against two rows of
independent data make construction fail, but with numpy LinAlgError raised
inside the least-squares call, not with a DimensionError: the code defines
no such exception class. -/
theorem c6_counterexample :
    olsInit envRef [1, 2, 3] [[1], [2]] "" [] 1 none = .error .linAlgError := by
  with_unfolding_all decide

/-- C6 amended: for independent data with a number of rows different from
one and from the dependent length, construction fails with the
LinAlgError that numpy.linalg.lstsq raises on incompatible dimensions,
before any result is exposed. -/
theorem c6_amended (env : Env) (dep : List ℚ) (indep : List (List ℚ))
    (dn : String) (nm : List String) (c : ℚ) (tr : Option ℚ)
    (h0 : indep.length ≠ 1) (h1 : indep.length ≠ dep.length) :
    olsInit env dep indep dn nm c tr = .error .linAlgError := by
  have hcond : ¬((makeX nm indep c tr).X.length = dep.length) := by
    rw [makeX_X_length nm indep c tr h0]
    exact h1
  simp only [olsInit]
  rw [if_neg hcond]

/-- Witness for c6_amended: one dependent value against two rows. -/
theorem c6_amended_witness :
    olsInit envRef [1] [[4], [5]] "" [] 1 none = .error .linAlgError :=
  c6_amended envRef [1] [[4], [5]] "" [] 1 none (by decide) (by decide)

/-- C7 counterexample: a rank-deficient design matrix (a column of ones
duplicated by the intercept) makes construction fail with IndexError, so
the estimator does not tolerate rank deficiency even though the underlying
lstsq collaborator would report a least-norm solution. -/
theorem c7_counterexample :
    olsInit envRef [1, 2, 3] [[1], [1], [1]] "" [] 1 none =
      .error .indexError := by
  with_unfolding_all decide

/-- C7 amended: whenever the design matrix is rank-deficient, i.e. the
determinant of its moment matrix vanishes, construction fails with
IndexError while subscripting the empty least-squares residual array; no
fit is produced. -/
theorem c7_amended (env : Env) (dep : List ℚ) (indep : List (List ℚ))
    (dn : String) (nm : List String) (c : ℚ) (tr : Option ℚ)
    (h1 : (makeX nm indep c tr).X.length = dep.length)
    (h2 : detL (matMulL (transposeL (makeX nm indep c tr).X)
      (makeX nm indep c tr).X) = 0) :
    olsInit env dep indep dn nm c tr = .error .indexError := by
  simp only [olsInit, if_pos h1]
  have hcond : ¬((makeX nm indep c tr).ncoefs < (makeX nm indep c tr).X.length ∧
      detL (matMulL (transposeL (makeX nm indep c tr).X)
        (makeX nm indep c tr).X) ≠ 0) := by
    rintro ⟨-, hd⟩
    exact hd h2
  rw [if_neg hcond]

/-- Witness for c7_amended: the second regressor is twice the first, so
the three-column design matrix (with intercept) has rank two. -/
theorem c7_amended_witness :
    olsInit envRef [1, 2, 3, 4] [[1, 2], [2, 4], [3, 6], [4, 8]] "" [] 1
      none = .error .indexError :=
  c7_amended envRef [1, 2, 3, 4] [[1, 2], [2, 4], [3, 6], [4, 8]] "" [] 1
    none (by with_unfolding_all decide) (by with_unfolding_all decide)

/-- C4 counterexample: requesting the covariance on an instance whose
moment matrix xTx is singular fails with numpy's LinAlgError (raised by
matrix inversion), not with a SingularMatrixError: the code defines no
such exception class.  The instance is returned unchanged. -/
theorem c4_counterexample :
    get_cov sSing = (.error .linAlgError, sSing) := by
  with_unfolding_all decide

/-- C4 amended: on any instance with no cached covariance and a singular
xTx, get_cov fails with the LinAlgError of the numpy inverse; the failure
is recoverable and leaves the instance, in particular its point estimates
(coefficients, residuals, ess, R squared), unchanged. -/
theorem c4_amended (s : OLS) (h1 : s.covC = none) (h2 : detL s.xTx = 0) :
    get_cov s = (.error .linAlgError, s) ∧ (get_cov s).2 = s ∧
    (get_cov s).2.coefs = s.coefs ∧ (get_cov s).2.resids = s.resids ∧
    (get_cov s).2.ess = s.ess ∧ (get_cov s).2.R2 = s.R2 := by
  have h : get_cov s = (.error .linAlgError, s) := by
    simp only [get_cov, h1]
    rw [if_pos h2]
  exact ⟨h, by rw [h], by rw [h], by rw [h], by rw [h], by rw [h]⟩

/-- Witness for c4_amended at a second concrete singular moment matrix. -/
theorem c4_amended_witness :
    get_cov sSing2 = (.error .linAlgError, sSing2) ∧
    (get_cov sSing2).2 = sSing2 ∧
    (get_cov sSing2).2.coefs = sSing2.coefs ∧
    (get_cov sSing2).2.resids = sSing2.resids ∧
    (get_cov sSing2).2.ess = sSing2.ess ∧
    (get_cov sSing2).2.R2 = sSing2.R2 :=
  c4_amended sSing2 rfl (by with_unfolding_all decide)

/-- C3: when the scipy collaborator is absent, get_pvals succeeds with a
list of ncoefs copies of positive infinity (one per coefficient), only the
pvals cache is filled, and the construction itself is unaffected by the
collaborator: under any other environment the fit has the same
coefficients, residuals and R squared. -/
theorem c3_degraded (env env' : Env) (dep : List ℚ) (indep : List (List ℚ))
    (dn : String) (nm : List String) (c : ℚ) (tr : Option ℚ) (fit : OLS)
    (hs : env.have_scipy = false)
    (h : olsInit env dep indep dn nm c tr = .ok fit) :
    get_pvals env fit =
      (.ok (List.replicate fit.ncoefs Flt.inf),
        { fit with pvalsC := some (List.replicate fit.ncoefs Flt.inf) }) ∧
    (List.replicate fit.ncoefs Flt.inf).length = fit.ncoefs ∧
    (olsInit env' dep indep dn nm c tr).toOption.map pointStats =
      some (pointStats fit) := by
  obtain ⟨-, -, -, -, -, -, -, -, -, hpv, -⟩ :=
    olsInit_ok_spec env dep indep dn nm c tr fit h
  refine ⟨?_, List.length_replicate _ _, ?_⟩
  · simp only [get_pvals, hpv, hs, Bool.false_eq_true, if_false]
  · rw [olsInit_pointStats_env env' env dep indep dn nm c tr, h]
    rfl

/-- Witness for c3_degraded at the concrete fit fitA, against the
scipy-present environment envT. -/
theorem c3_degraded_witness :
    get_pvals envRef fitA =
      (.ok (List.replicate fitA.ncoefs Flt.inf),
        { fitA with pvalsC := some (List.replicate fitA.ncoefs Flt.inf) }) ∧
    (List.replicate fitA.ncoefs Flt.inf).length = fitA.ncoefs ∧
    (olsInit envT depA indepA "" [] 1 none).toOption.map pointStats =
      some (pointStats fitA) :=
  c3_degraded envRef envT depA indepA "" [] 1 none fitA rfl
    (by with_unfolding_all decide)

/-- C8: the F statistic is stored as (R2/df_r)/((1-R2)/df_e) as claimed,
and without scipy get_pvalF returns positive infinity; but with scipy
available get_pvalF raises AttributeError instead of returning
1 - F_CDF(F, df_r, df_e), because line 191 assigns to the setter-less
property pvalF rather than to the private cache field.  Evaluated here at
the concrete fit fitA. -/
theorem c8_pvalF_bug :
    fitA.F = (fitA.R2 / (fitA.df_r : ℚ)) / ((1 - fitA.R2) / (fitA.df_e : ℚ)) ∧
    get_pvalF envT fitA = (.error .attributeError, fitA) ∧
    get_pvalF envRef fitA =
      (.ok Flt.inf, { fitA with pvalFC := some Flt.inf }) := by
  with_unfolding_all decide

/-- C9: the getters form the memoization state machine the spec claims.
For every instance and environment: every getter preserves all the base
fields set at construction; the caches evolve monotonically, so a computed
field is never recomputed to a different value; a getter whose cache is
already computed returns exactly the cached value and leaves the instance
entirely unchanged; every getter is idempotent, so a second access returns
the same value and state as the first; and the resids property has no side
effect at all. -/
theorem c9_state_machine (env : Env) (s : OLS) :
    (stripCaches (get_cov s).2 = stripCaches s ∧
     stripCaches (get_se env s).2 = stripCaches s ∧
     stripCaches (get_tvals env s).2 = stripCaches s ∧
     stripCaches (get_pvals env s).2 = stripCaches s ∧
     stripCaches (get_pvalF env s).2 = stripCaches s) ∧
    (cacheMono s (get_cov s).2 ∧ cacheMono s (get_se env s).2 ∧
     cacheMono s (get_tvals env s).2 ∧ cacheMono s (get_pvals env s).2 ∧
     cacheMono s (get_pvalF env s).2) ∧
    ((∀ v, s.covC = some v → get_cov s = (.ok v, s)) ∧
     (∀ v, s.seC = some v → get_se env s = (.ok v, s)) ∧
     (∀ v, s.tvalsC = some v → get_tvals env s = (.ok v, s)) ∧
     (∀ v, s.pvalsC = some v → get_pvals env s = (.ok v, s)) ∧
     (∀ v, s.pvalFC = some v → get_pvalF env s = (.ok v, s))) ∧
    (get_cov (get_cov s).2 = get_cov s ∧
     get_se env (get_se env s).2 = get_se env s ∧
     get_tvals env (get_tvals env s).2 = get_tvals env s ∧
     get_pvals env (get_pvals env s).2 = get_pvals env s ∧
     get_pvalF env (get_pvalF env s).2 = get_pvalF env s) ∧
    get_resids s = s.resids :=
  ⟨⟨(c9_cov s).1, (c9_se env s).1, (c9_tvals env s).1, (c9_pvals env s).1,
    (c9_pvalF env s).1⟩,
   ⟨(c9_cov s).2.1, (c9_se env s).2.1, (c9_tvals env s).2.1,
    (c9_pvals env s).2.1, (c9_pvalF env s).2.1⟩,
   ⟨fun v hv => get_cov_memo s v hv, fun v hv => get_se_memo env s v hv,
    fun v hv => get_tvals_memo env s v hv,
    fun v hv => get_pvals_memo env s v hv,
    fun v hv => get_pvalF_memo env s v hv⟩,
   ⟨(c9_cov s).2.2, (c9_se env s).2.2, (c9_tvals env s).2.2,
    (c9_pvals env s).2.2, (c9_pvalF env s).2.2⟩,
   rfl⟩

/-- Witness for c9_state_machine on the concrete instance sMemo, whose
covariance, t-statistics and F p-value caches are already computed. -/
theorem c9_state_machine_witness :
    get_cov sMemo = (.ok [[7]], sMemo) ∧
    get_tvals envRef sMemo = (.ok [9], sMemo) ∧
    get_pvalF envRef sMemo = (.ok Flt.inf, sMemo) ∧
    get_se envRef (get_se envRef sMemo).2 = get_se envRef sMemo := by
  obtain ⟨-, -, hmemo, hidem, -⟩ := c9_state_machine envRef sMemo
  exact ⟨hmemo.1 [[7]] rfl, hmemo.2.2.1 [9] rfl,
    hmemo.2.2.2.2 Flt.inf rfl, hidem.2.1⟩

/-- C10: two constructions from identical inputs under environments that
agree on every collaborator (scipy availability, the CDFs, sqrt, log)
yield results that are equal once the recorded date and time are erased,
and all derived inference values (covariance, standard errors,
t-statistics, p-values, F p-value) also agree; but whole-result equality
fails, exhibited by two runs of the same data under clocks that differ. -/
theorem c10_determinism (env env' : Env) (dep : List ℚ)
    (indep : List (List ℚ)) (dn : String) (nm : List String) (c : ℚ)
    (tr : Option ℚ) (h1 : env.have_scipy = env'.have_scipy)
    (h2 : env.tcdf = env'.tcdf) (h3 : env.fcdf = env'.fcdf)
    (h4 : env.sqrtFn = env'.sqrtFn) (h5 : env.logFn = env'.logFn)
    (h6 : env.log2pi = env'.log2pi) :
    (olsInit env dep indep dn nm c tr).toOption.map stripClock =
      (olsInit env' dep indep dn nm c tr).toOption.map stripClock ∧
    (∀ f f', olsInit env dep indep dn nm c tr = .ok f →
      olsInit env' dep indep dn nm c tr = .ok f' →
      (get_cov f).1 = (get_cov f').1 ∧
      (get_se env f).1 = (get_se env' f').1 ∧
      (get_tvals env f).1 = (get_tvals env' f').1 ∧
      (get_pvals env f).1 = (get_pvals env' f').1 ∧
      (get_pvalF env f).1 = (get_pvalF env' f').1) ∧
    olsInit envRef depA indepA "" [] 1 none ≠
      olsInit envClk depA indepA "" [] 1 none := by
  refine ⟨?_, ?_, by with_unfolding_all decide⟩
  · rw [olsInit_eq_ref env, olsInit_eq_ref env']
    cases olsInit envRef dep indep dn nm c tr
    · rfl
    · exact congrArg some (stripClock_reclock env env' h5 h6 _)
  · intro f f' hf hf'
    rw [olsInit_eq_ref env] at hf
    rw [olsInit_eq_ref env'] at hf'
    rcases hbase : olsInit envRef dep indep dn nm c tr with e0 | f0
    · rw [hbase] at hf
      exact Except.noConfusion hf
    · rw [hbase] at hf hf'
      have hfe : f = reclock env f0 := by
        injection hf with hinj
        exact hinj.symm
      have hfe' : f' = reclock env' f0 := by
        injection hf' with hinj
        exact hinj.symm
      subst hfe
      subst hfe'
      refine ⟨?_, ?_, ?_, ?_, ?_⟩
      · rw [get_cov_reclock, get_cov_reclock]
      · rw [get_se_reclock, get_se_reclock, get_se_env env env' h4 f0]
      · rw [get_tvals_reclock, get_tvals_reclock,
          get_tvals_env env env' h4 f0]
      · rw [get_pvals_reclock, get_pvals_reclock,
          get_pvals_env env env' h1 h2 h4 f0]
      · rw [get_pvalF_reclock, get_pvalF_reclock,
          get_pvalF_env env env' h1 f0]

/-- Witness for c10_determinism: the reference environment against the
same environment under a different clock, on the concrete data depA and
indepA; the stripped results agree and the degraded-mode p-values agree
across the two fits. -/
theorem c10_determinism_witness :
    (olsInit envRef depA indepA "" [] 1 none).toOption.map stripClock =
      (olsInit envClk depA indepA "" [] 1 none).toOption.map stripClock ∧
    (get_pvals envRef fitA).1 = (get_pvals envClk fitAClk).1 ∧
    olsInit envRef depA indepA "" [] 1 none ≠
      olsInit envClk depA indepA "" [] 1 none := by
  have h := c10_determinism envRef envClk depA indepA "" [] 1 none rfl rfl
    rfl rfl rfl rfl
  exact ⟨h.1, (h.2.1 fitA fitAClk (by with_unfolding_all decide)
    (by with_unfolding_all decide)).2.2.2.1, h.2.2⟩

theorem makeX_one_some (nm : List String) (ind : List (List ℚ)) (t0 : ℚ)
    (hne : ind.length ≠ 1) :
    makeX nm ind 1 (some t0) =
      { X := augmentRows ind (fun i => [1, (i : ℚ) - t0]),
        nobs := ind.length, nvars := (ind.headD []).length,
        ncoefs := (ind.headD []).length + 2,
        indep_names :=
          (if nm = [] then defaultNames (ind.headD []).length else nm) ++
            ["Constant", "Trend"] } := by
  simp [makeX, hne]

theorem makeX_one_none (nm : List String) (ind : List (List ℚ))
    (hne : ind.length ≠ 1) :
    makeX nm ind 1 none =
      { X := augmentRows ind (fun _ => [1]),
        nobs := ind.length, nvars := (ind.headD []).length,
        ncoefs := (ind.headD []).length + 1,
        indep_names :=
          (if nm = [] then defaultNames (ind.headD []).length else nm) ++
            ["Constant"] } := by
  simp [makeX, hne]

theorem makeX_zero_some (nm : List String) (ind : List (List ℚ)) (t0 : ℚ)
    (hne : ind.length ≠ 1) :
    makeX nm ind 0 (some t0) =
      { X := augmentRows ind (fun i => [(i : ℚ) - t0]),
        nobs := ind.length, nvars := (ind.headD []).length,
        ncoefs := (ind.headD []).length + 1,
        indep_names :=
          (if nm = [] then defaultNames (ind.headD []).length else nm) ++
            ["Trend"] } := by
  simp [makeX, hne]

theorem makeX_zero_none (nm : List String) (ind : List (List ℚ))
    (hne : ind.length ≠ 1) :
    makeX nm ind 0 none =
      { X := ind, nobs := ind.length, nvars := (ind.headD []).length,
        ncoefs := (ind.headD []).length,
        indep_names :=
          if nm = [] then defaultNames (ind.headD []).length else nm } := by
  simp [makeX, hne]

theorem getD_length_of_rect (indep : List (List ℚ)) (K : ℕ)
    (hK : ∀ r ∈ indep, r.length = K) (i : ℕ) (hi : i < indep.length) :
    (indep.getD i []).length = K := by
  rw [List.getD_eq_getElem?_getD, List.getElem?_eq_getElem hi]
  exact hK _ (List.getElem_mem hi)

/-- C5 amended: for rectangular input with at least two rows (a one-row
matrix is instead reinterpreted as a column, see the counterexample), the
design matrix has T rows, each of length K' = K plus one per requested
constant and trend column; row i is the original row followed by the
constant column entry (one, when the flag is on) and then the trend entry
i minus the trend offset, which fixes the claimed column order. -/
theorem c5_amended (nm : List String) (indep : List (List ℚ)) (T K : ℕ)
    (c : Bool) (tr : Option ℚ) (hT : indep.length = T) (hT2 : 2 ≤ T)
    (hK : ∀ r ∈ indep, r.length = K) :
    (makeX nm indep (if c then 1 else 0) tr).X.length = T ∧
    (makeX nm indep (if c then 1 else 0) tr).ncoefs =
      K + (if c then 1 else 0) + (if tr.isSome then 1 else 0) ∧
    (∀ r ∈ (makeX nm indep (if c then 1 else 0) tr).X,
      r.length = (makeX nm indep (if c then 1 else 0) tr).ncoefs) ∧
    (∀ i, i < T → (makeX nm indep (if c then 1 else 0) tr).X.getD i [] =
      indep.getD i [] ++ (if c then [(1 : ℚ)] else []) ++
      (match tr with | some t0 => [(i : ℚ) - t0] | none => [])) := by
  have hne : indep.length ≠ 1 := by omega
  have hK0 : (indep.headD []).length = K := by
    rcases indep with _ | ⟨r0, rest⟩
    · rw [List.length_nil] at hT
      omega
    · exact hK r0 (List.mem_cons_self r0 rest)
  cases c <;> rcases tr with _ | t0 <;>
    simp only [Bool.false_eq_true, eq_self_iff_true, if_true, if_false,
      Option.isSome_none, Option.isSome_some]
  · rw [makeX_zero_none nm indep hne, hK0]
    refine ⟨hT, rfl, ?_, ?_⟩
    · intro r hr
      rw [hK r hr]
    · intro i hi
      simp
  · rw [makeX_zero_some nm indep t0 hne, hK0]
    refine ⟨by rw [augmentRows_length]; exact hT, rfl, ?_, ?_⟩
    · intro r hr
      obtain ⟨i, hi, rfl⟩ := mem_augmentRows indep _ r hr
      rw [List.length_append, getD_length_of_rect indep K hK i hi]
      rfl
    · intro i hi
      rw [augmentRows_getD indep _ i (by omega)]
      simp
  · rw [makeX_one_none nm indep hne, hK0]
    refine ⟨by rw [augmentRows_length]; exact hT, rfl, ?_, ?_⟩
    · intro r hr
      obtain ⟨i, hi, rfl⟩ := mem_augmentRows indep _ r hr
      rw [List.length_append, getD_length_of_rect indep K hK i hi]
      rfl
    · intro i hi
      rw [augmentRows_getD indep _ i (by omega)]
      simp
  · rw [makeX_one_some nm indep t0 hne, hK0]
    refine ⟨by rw [augmentRows_length]; exact hT, rfl, ?_, ?_⟩
    · intro r hr
      obtain ⟨i, hi, rfl⟩ := mem_augmentRows indep _ r hr
      rw [List.length_append, getD_length_of_rect indep K hK i hi]
      rfl
    · intro i hi
      rw [augmentRows_getD indep _ i (by omega)]
      simp

/-- C5 counterexample: a single-row input of one observation of two
regressors is transposed by makeX (the numpy one-row convention), so with
an intercept the result has shape (2, 2) instead of the claimed (1, 3):
the universally quantified shape claim fails at T = 1. -/
theorem c5_counterexample :
    (makeX [] [[(5 : ℚ), 7]] 1 none).nobs = 2 ∧
    (makeX [] [[(5 : ℚ), 7]] 1 none).X = [[5, 1], [7, 1]] := by
  with_unfolding_all decide

/-- Witness for c5_amended: three observations of two regressors with an
intercept and a trend of offset one. -/
theorem c5_amended_witness :
    (makeX [] [[(1 : ℚ), 2], [3, 4], [5, 6]]
      (if true then 1 else 0) (some 1)).X.length = 3 ∧
    (makeX [] [[(1 : ℚ), 2], [3, 4], [5, 6]]
      (if true then 1 else 0) (some 1)).ncoefs =
      2 + (if true then 1 else 0) +
        (if (some (1 : ℚ)).isSome then 1 else 0) ∧
    (∀ r ∈ (makeX [] [[(1 : ℚ), 2], [3, 4], [5, 6]]
        (if true then 1 else 0) (some 1)).X,
      r.length = (makeX [] [[(1 : ℚ), 2], [3, 4], [5, 6]]
        (if true then 1 else 0) (some 1)).ncoefs) ∧
    (∀ i, i < 3 →
      (makeX [] [[(1 : ℚ), 2], [3, 4], [5, 6]]
        (if true then 1 else 0) (some 1)).X.getD i [] =
      [[(1 : ℚ), 2], [3, 4], [5, 6]].getD i [] ++
        (if true then [(1 : ℚ)] else []) ++
        (match (some (1 : ℚ)) with
          | some t0 => [(i : ℚ) - t0]
          | none => [])) :=
  c5_amended [] [[(1 : ℚ), 2], [3, 4], [5, 6]] 3 2 true (some 1) rfl
    (by omega) (by with_unfolding_all decide)
